import Mathlib

/-!
Verification of the perscache persistent-memoization library.

This file gives a shallow embedding of the key-derivation, storage and
cache-wrapper logic of src/perscache/cache.py and src/perscache/storage.py,
and settles the frozen claims about them.

Modelling conventions:
* Python values that flow through the cache are modelled by the inductive
  type PyValue.  Pickled byte strings are modelled by the pickled value
  itself (cloudpickle.dumps is a faithful injective encoding, and nothing
  in the repository inspects the bytes), with bytesLen as the byte length.
* The MD5 digest of hash_it is modelled as a perfect (injective)
  fingerprint of the pickled components, which is the idealization the
  code relies on (collision resistance); the key is therefore the list of
  hash components itself.
* Timestamps are natural numbers (seconds since epoch, UTC).
-/

/-- Model of a Python runtime value: None, bool, int, str, or an object of
a user-defined class, carrying its class name and the list of attribute
names defined on its class (used by hasattr-based dispatch). -/
inductive PyValue where
  | vNone : PyValue
  | vBool : Bool → PyValue
  | vInt : Int → PyValue
  | vStr : String → PyValue
  | vObj : String → List String → PyValue
deriving DecidableEq

/-- Byte length of the pickled form of a value (an abstract size measure:
the claims only ever compare and sum these lengths). -/
def bytesLen : PyValue → Nat
  | PyValue.vNone => 1
  | PyValue.vBool _ => 1
  | PyValue.vInt n => n.natAbs + 1
  | PyValue.vStr s => s.length + 1
  | PyValue.vObj c as => c.length + as.length + 1

/-- First-match association-list lookup, the model of Python dict lookup
(the dictionaries built by the code never hold duplicate keys). -/
def assocLookup {κ β : Type} [DecidableEq κ] (k : κ) : List (κ × β) → Option β
  | [] => none
  | p :: rest => if p.1 = k then some p.2 else assocLookup k rest

/-- One component fed to hash_it in Cache._get_hash: the optional
str(instance_id), the function source text, the serializer class name,
and the bound-argument dictionary (in insertion order, which is the
parameter declaration order, since pickling a dict is order-sensitive). -/
inductive HashComponent where
  | inst : Nat → HashComponent
  | src : String → HashComponent
  | ser : String → HashComponent
  | dict : List (String × PyValue) → HashComponent
deriving DecidableEq

/-- A derived cache key.  In the source this is the MD5 hex digest of the
concatenated pickles of the components; the digest is modelled as a
perfect fingerprint, so the key is the component list itself. -/
abbrev CacheKey := List HashComponent

/-- Model of hash_it (cache.py lines 22-29): pickles and hashes all the
data passed to it; MD5 modelled as an injective fingerprint. -/
def hash_it (data : List HashComponent) : CacheKey := data

/-- The ignore set: ignore_set in Cache._get_hash is set(ignore) when an
ignore list was given and the empty set otherwise. -/
def ignoreSetOf : Option (List String) → List String
  | none => []
  | some l => l

/-- The filter applied to each parameter in the Cache._get_hash loop:
the parameter name must not be in the ignore set, and when
per_instance is false a parameter literally named self is skipped. -/
def condParam (ignSet : List String) (perInstance : Bool) (p : String) : Bool :=
  (!(decide (p ∈ ignSet))) && (perInstance || !(decide (p = "self")))

/-- The value bound to parameter p at position i in Cache._get_hash:
args[i] if i is less than len(args), else kwargs[p] if present. -/
def bindOf (args : List PyValue) (kwargs : List (String × PyValue)) (i : Nat)
    (p : String) : Option PyValue :=
  match args[i]? with
  | some v => some v
  | none => assocLookup p kwargs

/-- The argument-dictionary building loop of Cache._get_hash
(cache.py lines 143-149): iterate the declared parameters (from
start_idx) with their positional index, keep those passing condParam, and
bind each to its positional argument if supplied, else to its keyword
argument if supplied, else leave it out of the dictionary.  Parameter
defaults are never consulted. -/
def argDictLoop (args : List PyValue) (kwargs : List (String × PyValue))
    (ignSet : List String) (perInstance : Bool) :
    List String → Nat → List (String × PyValue)
  | [], _ => []
  | p :: rest, i =>
    let tail := argDictLoop args kwargs ignSet perInstance rest (i + 1)
    if condParam ignSet perInstance p then
      match bindOf args kwargs i p with
      | some v => (p, v) :: tail
      | none => tail
    else tail

/-- start_idx in Cache._get_hash: 1 when an instance id is supplied
(skipping the self parameter), 0 otherwise. -/
def startIdxOf : Option Nat → Nat
  | none => 0
  | some _ => 1

/-- Model of Cache._get_hash (cache.py lines 117-160).  params is the
declared parameter-name list of the callable in order (including a
leading self for methods); start_idx skips the first parameter when an
instance id is supplied; the hash components are the source text, the
serializer class name and the argument dictionary, with str(instance_id)
prepended when an instance id is supplied and per_instance is true. -/
def Cache.get_hash (source : String) (params : List String)
    (args : List PyValue) (kwargs : List (String × PyValue))
    (serializerName : String) (ignore : Option (List String))
    (instance_id : Option Nat) (per_instance : Bool) : CacheKey :=
  let ignSet := ignoreSetOf ignore
  let start_idx : Nat := startIdxOf instance_id
  let arg_dict := argDictLoop args kwargs ignSet per_instance
    (params.drop start_idx) start_idx
  let base := [HashComponent.src source, HashComponent.ser serializerName,
    HashComponent.dict arg_dict]
  hash_it (match instance_id, per_instance with
    | some iid, true => HashComponent.inst iid :: base
    | some _, false => base
    | none, _ => base)

/-- Storage path of a cache entry, from Cache._get_filename
(cache.py lines 162-170): an optional class-name qualifier, the function
name, the key and the serializer extension.  The string rendering
classname.fnname-key.ext is injective in these fields, so the path is
modelled as the tuple itself. -/
structure Filename where
  classPrefixPart : Option String
  funcName : String
  key : CacheKey
  ext : String
deriving DecidableEq

/-- An on-disk cache entry: its pickled payload and its last-modified and
last-accessed timestamps. -/
structure Entry where
  data : PyValue
  mtime : Nat
  atime : Nat
deriving DecidableEq

/-- The state of a FileStorage namespace: the files currently in the
cache directory. -/
abbrev FSEntry := Filename × Entry

/-- Size of a stored file (len of its data). -/
def entrySize (f : FSEntry) : Nat := bytesLen f.2.data

/-- Last-access time of a stored file. -/
def entryAtime (f : FSEntry) : Nat := f.2.atime

/-- Total size of the entries in the namespace: the quantity the
eviction-bound claim is about.  This is not what the backends report for
the cache directory itself: LocalFileStorage.size applied to the
directory returns path.stat().st_size, the directory inode size
(storage.py lines 165-166), which does not track this total. -/
def dirSize (st : List FSEntry) : Nat := (st.map entrySize).sum

/-- Comparison used by FileStorage.delete_least_recently_used: a before b
in the sorted order when the atime of a is at least the atime of b
(Python sorted with key atime and reverse true). -/
def atimeGE (a b : FSEntry) : Prop := entryAtime b ≤ entryAtime a

instance : DecidableRel atimeGE :=
  fun a b => inferInstanceAs (Decidable (entryAtime b ≤ entryAtime a))

instance : IsTotal FSEntry atimeGE :=
  ⟨fun a b => Nat.le_total (entryAtime b) (entryAtime a)⟩

instance : IsTrans FSEntry atimeGE :=
  ⟨fun _ _ _ hab hbc => Nat.le_trans hbc hab⟩

/-- The files of the namespace sorted most recently accessed first
(storage.py line 66). -/
def sortByAtimeDesc (st : List FSEntry) : List FSEntry :=
  List.insertionSort atimeGE st

/-- Exit value of the accumulation loop of delete_least_recently_used
(storage.py lines 70-73): starting from the given running size, count how
many files are consumed while the running size is below the target. -/
def evictExitFrom (target : Nat) : List FSEntry → Nat → Nat
  | [], _ => 0
  | f :: rest, size =>
    if size < target then evictExitFrom target rest (size + entrySize f) + 1
    else 0

/-- Python list-slice start index: the index k of files, where a negative
k counts from the end and clamps at zero. -/
def pyStart (len : Nat) (k : Int) : Nat :=
  if k < 0 then len - (-k).toNat else min k.toNat len

/-- Model of FileStorage.delete_least_recently_used (storage.py lines
59-77).  Sorts the namespace files by descending atime, runs the size
accumulation loop to exit index i, and deletes the Python slice
files[i - 1 :]; returns the pair of the kept files and the deleted
files. -/
def delete_least_recently_used (st : List FSEntry) (target : Nat) :
    List FSEntry × List FSEntry :=
  let files := sortByAtimeDesc st
  let i := evictExitFrom target files 0
  let start := pyStart files.length ((i : Int) - 1)
  (files.take start, files.drop start)

/-- Remove the file at the given path from the namespace, the effect of
overwriting it (write_file replaces the previous entry wholesale). -/
def eraseEntry (st : List FSEntry) (n : Filename) : List FSEntry :=
  st.filter (fun p => if p.1 = n then false else true)

/-- Truthiness of self.max_size in the eviction trigger of
FileStorage.write: None and 0 are falsy. -/
def maxSizeTruthy : Option Nat → Bool
  | none => false
  | some s => if s = 0 then false else true

/-- Model of FileStorage.write (storage.py lines 49-57): if max_size is
truthy and self.size(self.location) plus the length of the new data
exceeds max_size, first run delete_least_recently_used with target
max_size; then persist the new file (replacing any prior entry at that
path), stamped with the current time.  The size accessor applied to the
storage location is the backend's own: for LocalFileStorage it returns
path.stat().st_size of the cache directory (storage.py lines 165-166), a
filesystem-defined inode size that is not determined by the entries and
does not track their total (on a typical ext4 filesystem it stays at
4096), so the model takes that accessor as the parameter locSize. -/
def FileStorage.write (locSize : List FSEntry → Nat) (st : List FSEntry)
    (maxSize : Option Nat)
    (n : Filename) (data : PyValue) (now : Nat) : List FSEntry :=
  let st1 :=
    if maxSizeTruthy maxSize = true ∧ locSize st + bytesLen data > maxSize.getD 0
    then (delete_least_recently_used st (maxSize.getD 0)).1
    else st
  eraseEntry st1 n ++ [(n, ⟨data, now, now⟩)]

/-- Failure modes of a storage read: the file is absent
(FileNotFoundError, raised by stat or read_bytes) or the entry predates
the deadline (CacheExpired). -/
inductive ReadErr where
  | fileNotFound : ReadErr
  | cacheExpired : ReadErr
deriving DecidableEq

/-- Model of FileStorage.read (storage.py lines 41-47): when the deadline
is non-null and the last-modified time of the entry is strictly older
than the deadline, raise CacheExpired; otherwise return the bytes.  A
missing file raises FileNotFoundError (from the stat call inside mtime
when a deadline is given, or from read_file otherwise). -/
def FileStorage.read (st : List FSEntry) (n : Filename)
    (deadline : Option Nat) : Except ReadErr PyValue :=
  match assocLookup n st with
  | none => Except.error ReadErr.fileNotFound
  | some e =>
    match deadline with
    | some d =>
      if e.mtime < d then Except.error ReadErr.cacheExpired
      else Except.ok e.data
    | none => Except.ok e.data

/-- A pluggable serializer: class name (hashed into the key), file
extension, and the dumps and loads converters.  Bytes are modelled by
PyValue, so the CloudPickle default is the identity codec. -/
structure SerializerModel where
  name : String
  ext : String
  dumps : PyValue → PyValue
  loads : PyValue → PyValue

/-- Model of the CloudPickleSerializer default (serializers.py): class
name CloudPickleSerializer, extension pickle, pickling modelled as the
identity on the abstract byte domain. -/
def cloudPickleSerializer : SerializerModel :=
  ⟨"CloudPickleSerializer", "pickle", fun v => v, fun v => v⟩

/-- The TTL deadline of _CachedFunction.deadline (cache.py line 330):
now minus ttl when a ttl is configured, None otherwise.  A zero
timedelta is falsy in Python, hence no deadline. -/
def deadlineOf (ttl : Option Nat) (now : Nat) : Option Nat :=
  match ttl with
  | none => none
  | some t => if t = 0 then none else some (now - t)

/-- Model of Cache._get (cache.py lines 103-109): read the bytes from
storage subject to the deadline and deserialize them. -/
def Cache.getOp (k : Filename) (sz : SerializerModel) (st : List FSEntry)
    (deadline : Option Nat) : Except ReadErr PyValue :=
  (FileStorage.read st k deadline).map sz.loads

/-- Model of Cache._set (cache.py lines 111-115): serialize the value and
write it to storage (which may trigger eviction). -/
def Cache.setOp (k : Filename) (v : PyValue) (sz : SerializerModel)
    (st : List FSEntry) (locSize : List FSEntry → Nat) (maxSize : Option Nat)
    (now : Nat) : List FSEntry :=
  FileStorage.write locSize st maxSize k (sz.dumps v) now

/-- A wrapped Python callable: its name, source text, declared parameter
names in order, and its (pure) evaluation function on positional and
keyword arguments. -/
structure PyFunction where
  name : String
  source : String
  params : List String
  eval : List PyValue → List (String × PyValue) → PyValue

/-- Model of _CachedFunction._non_async_wrapper (cache.py lines 261-292)
on the free-function path: derive the key with Cache._get_hash, render
the filename, try Cache._get with the ttl deadline, and on
FileNotFoundError or CacheExpired execute the callable, store the result
with Cache._set, and return it.  The result records the returned value,
the new storage state, and whether the underlying callable executed.
wrapperFilename is the storage path the wrapper derives for a call: the
key from Cache._get_hash with no instance id and per_instance defaulting
to True, rendered through Cache._get_filename for a plain function. -/
def wrapperFilename (sz : SerializerModel) (ign : Option (List String))
    (fn : PyFunction) (args : List PyValue)
    (kwargs : List (String × PyValue)) : Filename :=
  ⟨none, fn.name,
    Cache.get_hash fn.source fn.params args kwargs sz.name ign none true,
    sz.ext⟩

def nonAsyncWrapperFree (sz : SerializerModel) (locSize : List FSEntry → Nat)
    (ign : Option (List String))
    (maxSize : Option Nat) (ttl : Option Nat) (fn : PyFunction)
    (args : List PyValue) (kwargs : List (String × PyValue))
    (st : List FSEntry) (now : Nat) : PyValue × List FSEntry × Bool :=
  let fname := wrapperFilename sz ign fn args kwargs
  match Cache.getOp fname sz st (deadlineOf ttl now) with
  | Except.ok v => (v, st, false)
  | Except.error _ =>
    let v := fn.eval args kwargs
    (v, Cache.setOp fname v sz st locSize maxSize now, true)

/-- Calling the wrapped function n times with identical arguments against
the default configuration of a bare Cache decoration (LocalFileStorage
with max_size None, no ttl): returns the final storage state, the number
of times the underlying callable executed, and the list of returned
values in call order. -/
def callNTimes (sz : SerializerModel) (locSize : List FSEntry → Nat)
    (ign : Option (List String))
    (fn : PyFunction) (args : List PyValue)
    (kwargs : List (String × PyValue)) (now : Nat) :
    Nat → List FSEntry → List FSEntry × Nat × List PyValue
  | 0, st => (st, 0, [])
  | n + 1, st =>
    let r := nonAsyncWrapperFree sz locSize ign none none fn args kwargs st now
    let rest := callNTimes sz locSize ign fn args kwargs now n r.2.1
    (rest.1, (if r.2.2 then 1 else 0) + rest.2.1, r.1 :: rest.2.2)

/-- A sequence of raw storage writes: path, data and timestamp of each. -/
abbrev WriteOp := Filename × PyValue × Nat

/-- Execute a sequence of FileStorage.write operations in order. -/
def execWrites (locSize : List FSEntry → Nat) (maxSize : Option Nat)
    (ops : List WriteOp) (st : List FSEntry) : List FSEntry :=
  ops.foldl (fun s op => FileStorage.write locSize s maxSize op.1 op.2.1 op.2.2)
    st

/-- The size of the largest entry among a sequence of writes. -/
def maxWriteLen (ops : List WriteOp) : Nat :=
  ops.foldr (fun op m => Nat.max (bytesLen op.2.1) m) 0

/-- Whether the type of a value has an attribute with the given name:
true exactly for objects of user classes defining that attribute.  The
builtin types whose attributes could matter are exactly the ones the
isinstance guard of is_instance_method excludes, so their attributes are
not modelled. -/
def typeHasAttr (v : PyValue) (attr : String) : Bool :=
  match v with
  | PyValue.vObj _ attrs => decide (attr ∈ attrs)
  | _ => false

/-- Whether a value is an instance of str, bytes, int, float or bool. -/
def isPrimitiveInstance : PyValue → Bool
  | PyValue.vBool _ => true
  | PyValue.vInt _ => true
  | PyValue.vStr _ => true
  | _ => false

/-- Model of the is_instance_method predicate of _CachedFunction.__call__
(cache.py lines 239-241): args is nonempty, the type of the first
argument has an attribute named like the wrapped callable, and the first
argument is not a str, bytes, int, float or bool instance. -/
def is_instance_method (fnName : String) (args : List PyValue) : Bool :=
  match args with
  | [] => false
  | a :: _ => typeHasAttr a fnName && !(isPrimitiveInstance a)

/-- A call site as seen at runtime: the name of the wrapped callable,
whether the call really is an invocation of a method bound to the first
positional argument, and the positional arguments. -/
structure CallScenario where
  fnName : String
  isBoundCall : Bool
  args : List PyValue

/-- Realizability of a call scenario in Python: a genuine bound-method
call has the instance as first positional argument and the class of that
instance necessarily defines an attribute with the method name; a
free-function call may receive any values, including an object whose
class happens to define an attribute with the same name as the free
function. -/
def CallScenario.wellFormed (s : CallScenario) : Bool :=
  if s.isBoundCall then
    match s.args with
    | PyValue.vObj _ attrs :: _ => decide (s.fnName ∈ attrs)
    | _ => false
  else true

/-- The per-call outcome of the dispatch in the wrapped closure of
_CachedFunction.__call__ (cache.py lines 243-255) together with
_non_async_wrapper: the derived cache key, and the argument list the
underlying function is ultimately executed with. -/
structure CallOutcome where
  key : CacheKey
  execArgs : List PyValue

/-- Model of the dispatch: when is_instance_method holds, the callable is
bound to the first argument, instance_id is id(args[0]) when
per_instance is true and None otherwise, and the key is derived by
Cache._get_hash on the underlying function with the full argument tuple;
the bound method is then called with args[1:], so the underlying
function executes with the full argument tuple.  Otherwise the key is
derived with no instance id and the default per_instance True, and the
function executes with the arguments as passed.  instId stands for
id(args[0]). -/
def wrappedKeyAndExec (source fnName : String) (params : List String)
    (serName : String) (ign : Option (List String)) (perInstance : Bool)
    (instId : Nat) (args : List PyValue)
    (kwargs : List (String × PyValue)) : CallOutcome :=
  if is_instance_method fnName args then
    { key := Cache.get_hash source params args kwargs serName ign
        (if perInstance then some instId else none) perInstance,
      execArgs := args }
  else
    { key := Cache.get_hash source params args kwargs serName ign none true,
      execArgs := args }

/-- Configuration errors raised while the decorator is applied:
ViolationError from the icontract precondition on Cache.__call__ for a
non-positive ttl, and ViolationError from the precondition on
_CachedFunction.__call__ for an ignore list naming a parameter absent
from the signature of the wrapped callable. -/
inductive ConfigError where
  | invalidTtl : ConfigError
  | unknownIgnored : ConfigError
deriving DecidableEq

/-- The configuration a successful decoration closes over. -/
structure WrapperCfg where
  ignore : Option (List String)
  ttl : Option Int
  perInstance : Bool
deriving DecidableEq

/-- The ttl precondition of Cache.__call__ (cache.py lines 56-59): ttl is
None or strictly positive. -/
def ttlValid : Option Int → Bool
  | none => true
  | some t => decide (0 < t)

/-- The ignore precondition of _CachedFunction.__call__ (cache.py lines
231-235): every ignored name occurs among the declared parameters. -/
def ignoreValid (params : List String) : Option (List String) → Bool
  | none => true
  | some l => l.all (fun x => decide (x ∈ params))

/-- Model of applying the decorator (Cache.__call__ followed by
_CachedFunction.__call__ on the target callable): the ttl precondition is
checked first, then the ignore precondition; both run while the
decorator is applied, before any call to the wrapped function can
happen.  On success the wrapper closure with its configuration is
produced. -/
def Cache.decorate (params : List String) (ign : Option (List String))
    (ttl : Option Int) (perInstance : Bool) : Except ConfigError WrapperCfg :=
  if ttlValid ttl = false then Except.error ConfigError.invalidTtl
  else if ignoreValid params ign = false then Except.error ConfigError.unknownIgnored
  else Except.ok ⟨ign, ttl, perInstance⟩

/-- Modelled from the spec: the retained set of the eviction pass as the
claim states it, namely the entries accumulated from most recent to
least recent while the running total stays below the target size (the
accumulation stops when the total would reach or exceed the target). -/
def specEvictionKeptFrom (target : Nat) : List FSEntry → Nat → List FSEntry
  | [], _ => []
  | f :: rest, acc =>
    if acc + entrySize f < target then
      f :: specEvictionKeptFrom target rest (acc + entrySize f)
    else []

/-- Modelled from the spec: the accumulated most-recently-used entries
the eviction pass is claimed to retain. -/
def specEvictionKept (st : List FSEntry) (target : Nat) : List FSEntry :=
  specEvictionKeptFrom target (sortByAtimeDesc st) 0

/-- The maximal prefix of the sorted file list whose total size is
strictly below the remaining budget: the set the code actually
retains in the threshold-crossing case. -/
def keepUnderTarget : List FSEntry → Nat → List FSEntry
  | [], _ => []
  | f :: rest, t =>
    if entrySize f < t then f :: keepUnderTarget rest (t - entrySize f)
    else []

/-- A concrete stored file used as counterexample input: a one-byte
entry, last accessed and modified at time 0. -/
def cexFile : FSEntry :=
  (⟨none, "f", [], "pickle"⟩, ⟨PyValue.vInt 0, 0, 0⟩)

/-- A concrete call scenario used as counterexample input: a free
function named m called with a single argument that is an object of a
class C which happens to define an attribute named m. -/
def cexScenario : CallScenario :=
  ⟨"m", false, [PyValue.vObj "C" ["m"]]⟩

/-- The stat st_size reported for the cache directory inode by a typical
ext4 filesystem: the constant 4096, independent of the entries the
directory holds.  This is a faithful instantiation of the locSize
accessor of FileStorage.write for LocalFileStorage (storage.py lines
165-166). -/
def statDirSize : List FSEntry → Nat := fun _ => 4096

/-- Four writes of 4000-byte entries under distinct paths: input on
which the eviction trigger of FileStorage.write never fires when the
location-size accessor reports the directory inode size. -/
def c3FailOps : List WriteOp :=
  [(⟨none, "a", [], ""⟩, PyValue.vInt 3999, 0),
   (⟨none, "b", [], ""⟩, PyValue.vInt 3999, 1),
   (⟨none, "c", [], ""⟩, PyValue.vInt 3999, 2),
   (⟨none, "d", [], ""⟩, PyValue.vInt 3999, 3)]

/-- A concrete wrapped callable used in witnesses: a pure one-parameter
function returning its argument. -/
def fnSample : PyFunction :=
  ⟨"f", "def f(x): return x", ["x"], fun args _ => args.headD PyValue.vNone⟩

/-- A concrete storage path used in witnesses. -/
def fnmSample : Filename := ⟨none, "f", [], "pickle"⟩

/-! ## Helper lemmas about the argument-dictionary loop -/

theorem argDictLoop_lookup_none (args : List PyValue)
    (kwargs : List (String × PyValue)) (ign : List String) (pin : Bool)
    (ps : List String) (i : Nat) (p : String) :
    p ∉ ps → assocLookup p (argDictLoop args kwargs ign pin ps i) = none := by
  induction ps generalizing i with
  | nil => intro _; rfl
  | cons q rest ih =>
    intro hp
    have hq : q ≠ p := fun h => hp (h ▸ List.mem_cons_self q rest)
    have hrest : p ∉ rest := fun h => hp (List.mem_cons_of_mem _ h)
    simp only [argDictLoop]
    by_cases hc : condParam ign pin q = true
    · simp only [hc, if_true]
      cases hb : bindOf args kwargs i q with
      | none => simpa using ih (i + 1) hrest
      | some v =>
        simp only [assocLookup, hq, if_false]
        simpa using ih (i + 1) hrest
    · simp only [hc, if_false]
      simpa using ih (i + 1) hrest

theorem argDictLoop_congr (args₁ args₂ : List PyValue)
    (kwargs₁ kwargs₂ : List (String × PyValue)) (ign : List String)
    (pin : Bool) (ps : List String) (i : Nat)
    (h : ∀ k p, ps[k]? = some p → condParam ign pin p = true →
      bindOf args₁ kwargs₁ (i + k) p = bindOf args₂ kwargs₂ (i + k) p) :
    argDictLoop args₁ kwargs₁ ign pin ps i
      = argDictLoop args₂ kwargs₂ ign pin ps i := by
  induction ps generalizing i with
  | nil => rfl
  | cons q rest ih =>
    have htail : argDictLoop args₁ kwargs₁ ign pin rest (i + 1)
        = argDictLoop args₂ kwargs₂ ign pin rest (i + 1) := by
      refine ih (i + 1) (fun k p hk hc => ?_)
      have := h (k + 1) p (by simpa using hk) hc
      have harith : i + (k + 1) = i + 1 + k := by omega
      rwa [harith] at this
    simp only [argDictLoop, htail]
    by_cases hc : condParam ign pin q = true
    · have hq := h 0 q (by simp) hc
      rw [Nat.add_zero] at hq
      rw [hq]
    · simp only [hc]
      simp

theorem argDictLoop_lookup (args : List PyValue)
    (kwargs : List (String × PyValue)) (ign : List String) (pin : Bool)
    (ps : List String) (i k : Nat) (p : String) :
    ps.Nodup → ps[k]? = some p → condParam ign pin p = true →
    assocLookup p (argDictLoop args kwargs ign pin ps i)
      = bindOf args kwargs (i + k) p := by
  induction ps generalizing i k with
  | nil => intro _ hk; simp at hk
  | cons q rest ih =>
    intro hnd hk hc
    have hnd1 : q ∉ rest := (List.nodup_cons.mp hnd).1
    have hnd2 : rest.Nodup := (List.nodup_cons.mp hnd).2
    cases k with
    | zero =>
      have hq : q = p := by simpa using hk
      subst hq
      simp only [argDictLoop, hc, if_true, Nat.add_zero]
      cases hb : bindOf args kwargs i q with
      | some v => simp [assocLookup, hb]
      | none =>
        exact argDictLoop_lookup_none args kwargs ign pin rest (i + 1) q hnd1
    | succ k' =>
      have hk' : rest[k']? = some p := by simpa using hk
      have hmem : p ∈ rest := by
        have := List.getElem?_eq_some.mp hk'
        obtain ⟨hlt, hv⟩ := this
        exact hv ▸ List.getElem_mem hlt
      have hqp : q ≠ p := fun h => hnd1 (h ▸ hmem)
      have ihr := ih (i + 1) k' hnd2 hk' hc
      have harith : i + 1 + k' = i + (k' + 1) := by omega
      rw [harith] at ihr
      simp only [argDictLoop]
      by_cases hcq : condParam ign pin q = true
      · simp only [hcq, if_true]
        cases hb : bindOf args kwargs i q with
        | some v => simp only [assocLookup, hqp, if_false]; exact ihr
        | none => exact ihr
      · simp only [hcq, if_false]; exact ihr

theorem assocLookup_append {κ β : Type} [DecidableEq κ] (k : κ)
    (a b : List (κ × β)) :
    assocLookup k (a ++ b) =
      match assocLookup k a with
      | some v => some v
      | none => assocLookup k b := by
  induction a with
  | nil => rfl
  | cons x xs ih =>
    by_cases h : x.1 = k <;> simp [assocLookup, h, ih]

theorem assocLookup_zip (ps : List String) (vs : List PyValue) (k : Nat)
    (p : String) :
    ps.Nodup → ps[k]? = some p → assocLookup p (ps.zip vs) = vs[k]? := by
  induction ps generalizing vs k with
  | nil => intro _ hk; simp at hk
  | cons q rest ih =>
    intro hnd hk
    have hnd1 : q ∉ rest := (List.nodup_cons.mp hnd).1
    have hnd2 : rest.Nodup := (List.nodup_cons.mp hnd).2
    cases vs with
    | nil => simp [assocLookup]
    | cons v vr =>
      cases k with
      | zero =>
        have hq : q = p := by simpa using hk
        subst hq
        simp [List.zip, assocLookup]
      | succ k' =>
        have hk' : rest[k']? = some p := by simpa using hk
        have hmem : p ∈ rest := by
          obtain ⟨hlt, hv⟩ := List.getElem?_eq_some.mp hk'
          exact hv ▸ List.getElem_mem hlt
        have hqp : q ≠ p := fun h => hnd1 (h ▸ hmem)
        simp only [List.zip_cons_cons, assocLookup, hqp, if_false]
        simpa using ih vr k' hnd2 hk'

/-! ## Helper lemmas about eviction and storage size -/

theorem dirSize_nil : dirSize [] = 0 := rfl

theorem dirSize_cons (f : FSEntry) (l : List FSEntry) :
    dirSize (f :: l) = entrySize f + dirSize l := by
  simp [dirSize]

theorem dirSize_append (a b : List FSEntry) :
    dirSize (a ++ b) = dirSize a + dirSize b := by
  simp [dirSize]

theorem evictExitFrom_of_ge (t : Nat) (s : List FSEntry) (acc : Nat)
    (h : t ≤ acc) : evictExitFrom t s acc = 0 := by
  cases s with
  | nil => rfl
  | cons f r => simp [evictExitFrom, Nat.not_lt.mpr h]

theorem evictExitFrom_le_length (t : Nat) (s : List FSEntry) :
    ∀ acc, evictExitFrom t s acc ≤ s.length := by
  induction s with
  | nil => intro acc; simp [evictExitFrom]
  | cons f r ih =>
    intro acc
    simp only [evictExitFrom, List.length_cons]
    by_cases h : acc < t
    · simp only [if_pos h]
      exact Nat.succ_le_succ (ih _)
    · simp only [if_neg h]
      omega

theorem evictExitFrom_of_total_lt (t : Nat) (s : List FSEntry) :
    ∀ acc, acc < t → acc + dirSize s < t →
    evictExitFrom t s acc = s.length := by
  induction s with
  | nil => intro acc _ _; rfl
  | cons f r ih =>
    intro acc h1 h2
    rw [dirSize_cons] at h2
    simp only [evictExitFrom, if_pos h1, List.length_cons]
    rw [ih (acc + entrySize f) (by omega) (by omega)]

theorem evictExitFrom_pos_iff_lt (t : Nat) (s : List FSEntry) (acc : Nat)
    (h : 0 < evictExitFrom t s acc) : acc < t := by
  by_contra hge
  rw [evictExitFrom_of_ge t s acc (by omega)] at h
  exact absurd h (by simp)

theorem take_evictExit_eq_keepUnderTarget (t : Nat) (s : List FSEntry) :
    ∀ acc, acc < t → t ≤ acc + dirSize s →
    s.take (evictExitFrom t s acc - 1) = keepUnderTarget s (t - acc) := by
  induction s with
  | nil =>
    intro acc h1 h2
    rw [dirSize_nil] at h2
    omega
  | cons f r ih =>
    intro acc h1 h2
    rw [dirSize_cons] at h2
    simp only [evictExitFrom, if_pos h1, Nat.add_sub_cancel]
    by_cases hf : acc + entrySize f < t
    · have hk : entrySize f < t - acc := by omega
      simp only [keepUnderTarget, if_pos hk]
      have hne : 0 < evictExitFrom t r (acc + entrySize f) := by
        cases r with
        | nil =>
          exfalso
          rw [dirSize_nil] at h2
          omega
        | cons g r' =>
          simp only [evictExitFrom, if_pos hf]
          omega
      obtain ⟨m, hm⟩ : ∃ m, evictExitFrom t r (acc + entrySize f) = m + 1 :=
        ⟨evictExitFrom t r (acc + entrySize f) - 1, by omega⟩
      rw [hm, List.take_succ_cons]
      have hrec := ih (acc + entrySize f) hf (by omega)
      rw [hm, Nat.add_sub_cancel] at hrec
      rw [hrec, Nat.sub_sub]
    · have h0 : evictExitFrom t r (acc + entrySize f) = 0 :=
        evictExitFrom_of_ge t r _ (by omega)
      rw [h0]
      have hk : ¬ entrySize f < t - acc := by omega
      simp [keepUnderTarget, hk]

theorem dirSize_take_evictExit_lt (t : Nat) (s : List FSEntry) :
    ∀ acc, acc < t →
    acc + dirSize (s.take (evictExitFrom t s acc - 1)) < t := by
  induction s with
  | nil =>
    intro acc h1
    simpa [dirSize] using h1
  | cons f r ih =>
    intro acc h1
    simp only [evictExitFrom, if_pos h1, Nat.add_sub_cancel]
    cases he : evictExitFrom t r (acc + entrySize f) with
    | zero => simpa [dirSize] using h1
    | succ m =>
      have hacc : acc + entrySize f < t :=
        evictExitFrom_pos_iff_lt t r (acc + entrySize f) (by omega)
      have hrec := ih (acc + entrySize f) hacc
      rw [he, Nat.add_sub_cancel] at hrec
      rw [List.take_succ_cons, dirSize_cons]
      omega

theorem take_min_len {α : Type} (l : List α) (m : Nat) :
    l.take (min m l.length) = l.take m := by
  rcases Nat.le_total m l.length with h | h
  · rw [Nat.min_eq_left h]
  · rw [Nat.min_eq_right h, List.take_of_length_le h,
      List.take_of_length_le (Nat.le_refl _)]

theorem drop_min_len {α : Type} (l : List α) (m : Nat) :
    l.drop (min m l.length) = l.drop m := by
  rcases Nat.le_total m l.length with h | h
  · rw [Nat.min_eq_left h]
  · rw [Nat.min_eq_right h, List.drop_eq_nil_of_le h,
      List.drop_eq_nil_of_le (Nat.le_refl _)]

theorem evict_kept_eq_take (st : List FSEntry) (t : Nat) (ht : 0 < t) :
    (delete_least_recently_used st t).1
      = (sortByAtimeDesc st).take (evictExitFrom t (sortByAtimeDesc st) 0 - 1) := by
  unfold delete_least_recently_used
  cases hfe : sortByAtimeDesc st with
  | nil => simp
  | cons f r =>
    have hi : evictExitFrom t (f :: r) 0 = evictExitFrom t r (0 + entrySize f) + 1 := by
      simp [evictExitFrom, ht]
    simp only [hi]
    have hcast : ((evictExitFrom t r (0 + entrySize f) + 1 : Nat) : Int) - 1
        = ((evictExitFrom t r (0 + entrySize f) : Nat) : Int) := by push_cast; ring
    rw [hcast]
    unfold pyStart
    rw [if_neg (by omega)]
    · rw [Int.toNat_natCast, take_min_len]
      simp

theorem evict_deleted_eq_drop (st : List FSEntry) (t : Nat) (ht : 0 < t) :
    (delete_least_recently_used st t).2
      = (sortByAtimeDesc st).drop (evictExitFrom t (sortByAtimeDesc st) 0 - 1) := by
  unfold delete_least_recently_used
  cases hfe : sortByAtimeDesc st with
  | nil => simp
  | cons f r =>
    have hi : evictExitFrom t (f :: r) 0 = evictExitFrom t r (0 + entrySize f) + 1 := by
      simp [evictExitFrom, ht]
    simp only [hi]
    have hcast : ((evictExitFrom t r (0 + entrySize f) + 1 : Nat) : Int) - 1
        = ((evictExitFrom t r (0 + entrySize f) : Nat) : Int) := by push_cast; ring
    rw [hcast]
    unfold pyStart
    rw [if_neg (by omega)]
    · rw [Int.toNat_natCast, drop_min_len]
      simp

theorem dirSize_evict_kept_lt (st : List FSEntry) (t : Nat) (ht : 0 < t) :
    dirSize (delete_least_recently_used st t).1 < t := by
  rw [evict_kept_eq_take st t ht]
  have := dirSize_take_evictExit_lt t (sortByAtimeDesc st) 0 ht
  omega

theorem maxWriteLen_cons (o : WriteOp) (os : List WriteOp) :
    maxWriteLen (o :: os) = Nat.max (bytesLen o.2.1) (maxWriteLen os) := rfl

theorem le_maxWriteLen (ops : List WriteOp) (op : WriteOp) (h : op ∈ ops) :
    bytesLen op.2.1 ≤ maxWriteLen ops := by
  induction ops with
  | nil => simp at h
  | cons o os ih =>
    rw [maxWriteLen_cons]
    rcases List.mem_cons.mp h with h1 | h2
    · subst h1; exact Nat.le_max_left _ _
    · exact Nat.le_trans (ih h2) (Nat.le_max_right _ _)

theorem execWrites_append (locSize : List FSEntry → Nat)
    (maxSize : Option Nat) (a b : List WriteOp) (st : List FSEntry) :
    execWrites locSize maxSize (a ++ b) st
      = execWrites locSize maxSize b (execWrites locSize maxSize a st) := by
  simp [execWrites, List.foldl_append]

theorem dirSize_erase_le (st : List FSEntry) (n : Filename) :
    dirSize (eraseEntry st n) ≤ dirSize st := by
  induction st with
  | nil => exact Nat.le_refl _
  | cons f r ih =>
    unfold eraseEntry at *
    rw [List.filter_cons]
    by_cases h : f.1 = n
    · rw [if_neg (by simp [h])]
      rw [dirSize_cons]
      omega
    · rw [if_pos (by simp [h])]
      rw [dirSize_cons, dirSize_cons]
      omega

theorem dirSize_write_le (st : List FSEntry) (S : Nat) (n : Filename)
    (d : PyValue) (now : Nat) (hS : 0 < S) :
    dirSize (FileStorage.write dirSize st (some S) n d now)
      ≤ S + bytesLen d := by
  unfold FileStorage.write
  simp only [Option.getD_some]
  have hsingle : dirSize [(n, ⟨d, now, now⟩)] = bytesLen d := by
    simp [dirSize, entrySize]
  by_cases hc : maxSizeTruthy (some S) = true ∧ dirSize st + bytesLen d > S
  · rw [if_pos hc, dirSize_append, hsingle]
    have h1 : dirSize (delete_least_recently_used st S).1 < S :=
      dirSize_evict_kept_lt st S hS
    have h2 := dirSize_erase_le (delete_least_recently_used st S).1 n
    omega
  · rw [if_neg hc, dirSize_append, hsingle]
    have hS0 : S ≠ 0 := by omega
    have htr : maxSizeTruthy (some S) = true := by
      simp [maxSizeTruthy, hS0]
    have hle : dirSize st + bytesLen d ≤ S := by
      by_contra hgt
      exact hc ⟨htr, by omega⟩
    have h2 := dirSize_erase_le st n
    omega

theorem assocLookup_erase_self (st : List FSEntry) (n : Filename) :
    assocLookup n (eraseEntry st n) = none := by
  induction st with
  | nil => rfl
  | cons f r ih =>
    unfold eraseEntry at *
    rw [List.filter_cons]
    by_cases h : f.1 = n
    · rw [if_neg (by simp [h])]
      exact ih
    · rw [if_pos (by simp [h])]
      simp only [assocLookup, if_neg h]
      exact ih

theorem assocLookup_write_self (locSize : List FSEntry → Nat)
    (st : List FSEntry) (maxSize : Option Nat)
    (n : Filename) (d : PyValue) (now : Nat) :
    assocLookup n (FileStorage.write locSize st maxSize n d now)
      = some ⟨d, now, now⟩ := by
  unfold FileStorage.write
  rw [assocLookup_append]
  set st1 := if maxSizeTruthy maxSize = true ∧
      locSize st + bytesLen d > maxSize.getD 0
    then (delete_least_recently_used st (maxSize.getD 0)).1 else st with hst1
  rw [assocLookup_erase_self st1 n]
  simp [assocLookup]

theorem nonAsyncWrapperFree_hit (sz : SerializerModel)
    (locSize : List FSEntry → Nat)
    (ign : Option (List String)) (maxSize ttl : Option Nat)
    (fn : PyFunction) (args : List PyValue)
    (kwargs : List (String × PyValue)) (st : List FSEntry) (now : Nat)
    (v : PyValue)
    (h : Cache.getOp (wrapperFilename sz ign fn args kwargs) sz st
      (deadlineOf ttl now) = Except.ok v) :
    nonAsyncWrapperFree sz locSize ign maxSize ttl fn args kwargs st now
      = (v, st, false) := by
  simp only [nonAsyncWrapperFree, h]

theorem nonAsyncWrapperFree_miss (sz : SerializerModel)
    (locSize : List FSEntry → Nat)
    (ign : Option (List String)) (maxSize ttl : Option Nat)
    (fn : PyFunction) (args : List PyValue)
    (kwargs : List (String × PyValue)) (st : List FSEntry) (now : Nat)
    (err : ReadErr)
    (h : Cache.getOp (wrapperFilename sz ign fn args kwargs) sz st
      (deadlineOf ttl now) = Except.error err) :
    nonAsyncWrapperFree sz locSize ign maxSize ttl fn args kwargs st now
      = (fn.eval args kwargs,
         Cache.setOp (wrapperFilename sz ign fn args kwargs)
           (fn.eval args kwargs) sz st locSize maxSize now, true) := by
  simp only [nonAsyncWrapperFree, h]

theorem callNTimes_stable (sz : SerializerModel)
    (locSize : List FSEntry → Nat)
    (ign : Option (List String)) (fn : PyFunction) (args : List PyValue)
    (kwargs : List (String × PyValue)) (now : Nat) (st : List FSEntry)
    (e : Entry)
    (he : assocLookup (wrapperFilename sz ign fn args kwargs) st = some e) :
    ∀ n, callNTimes sz locSize ign fn args kwargs now n st
      = (st, 0, List.replicate n (sz.loads e.data)) := by
  intro n
  induction n with
  | zero => rfl
  | succ m ih =>
    have hread : FileStorage.read st (wrapperFilename sz ign fn args kwargs)
        (deadlineOf none now) = Except.ok e.data := by
      unfold FileStorage.read deadlineOf
      rw [he]
    have hget : Cache.getOp (wrapperFilename sz ign fn args kwargs) sz st
        (deadlineOf none now) = Except.ok (sz.loads e.data) := by
      unfold Cache.getOp
      rw [hread]
      rfl
    simp only [callNTimes]
    rw [nonAsyncWrapperFree_hit sz locSize ign none none fn args kwargs st now
      _ hget]
    rw [ih]
    simp [List.replicate]

theorem assocLookup_none_of_keys {κ β : Type} [DecidableEq κ] (k : κ)
    (l : List (κ × β)) (h : ∀ e ∈ l, e.1 ≠ k) : assocLookup k l = none := by
  induction l with
  | nil => rfl
  | cons x xs ih =>
    simp only [assocLookup, if_neg (h x (List.mem_cons_self x xs))]
    exact ih (fun e he => h e (List.mem_cons_of_mem _ he))

theorem get_hash_eq_dict_eq (source : String) (params : List String)
    (args₁ args₂ : List PyValue) (kwargs₁ kwargs₂ : List (String × PyValue))
    (serName : String) (ignore : Option (List String)) (iid : Option Nat)
    (pin : Bool)
    (h : Cache.get_hash source params args₁ kwargs₁ serName ignore iid pin
      = Cache.get_hash source params args₂ kwargs₂ serName ignore iid pin) :
    argDictLoop args₁ kwargs₁ (ignoreSetOf ignore) pin
        (params.drop (startIdxOf iid)) (startIdxOf iid)
      = argDictLoop args₂ kwargs₂ (ignoreSetOf ignore) pin
        (params.drop (startIdxOf iid)) (startIdxOf iid) := by
  unfold Cache.get_hash hash_it at h
  cases iid with
  | none => simpa using h
  | some x => cases pin <;> simpa using h

theorem get_hash_congr_of_bind (source : String) (params : List String)
    (args₁ args₂ : List PyValue) (kwargs₁ kwargs₂ : List (String × PyValue))
    (serName : String) (ignore : Option (List String)) (pin : Bool)
    (h : ∀ k p, params[k]? = some p →
      condParam (ignoreSetOf ignore) pin p = true →
      bindOf args₁ kwargs₁ k p = bindOf args₂ kwargs₂ k p) :
    Cache.get_hash source params args₁ kwargs₁ serName ignore none pin
      = Cache.get_hash source params args₂ kwargs₂ serName ignore none pin := by
  have hdict := argDictLoop_congr args₁ args₂ kwargs₁ kwargs₂
    (ignoreSetOf ignore) pin params 0 (fun k p hk hc => by
      simpa using h k p hk hc)
  unfold Cache.get_hash hash_it startIdxOf
  simp only [List.drop_zero]
  rw [hdict]

theorem dropLast_eq_take_pred {α : Type} (l : List α) :
    l.dropLast = l.take (l.length - 1) := by
  induction l with
  | nil => rfl
  | cons x xs ih =>
    cases xs with
    | nil => rfl
    | cons y ys =>
      rw [List.dropLast_cons₂, ih]
      simp only [List.length_cons, Nat.add_sub_cancel, List.take_succ_cons]

/-! ## The claims -/

/-- Claim C1: for every pure wrapped callable decorated by Cache with a
fresh (empty) storage and no TTL, calling it N times (N at least 2) with
identical arguments executes the underlying callable exactly once (the
first call), and all N calls return equal results.  The serializer is
any serializer that round-trips the result value (the CloudPickle
default does). -/
theorem claim_C1_idempotence (sz : SerializerModel)
    (locSize : List FSEntry → Nat)
    (hrt : ∀ v, sz.loads (sz.dumps v) = v) (ign : Option (List String))
    (fn : PyFunction) (args : List PyValue)
    (kwargs : List (String × PyValue)) (now : Nat) (N : Nat) (hN : 2 ≤ N) :
    (nonAsyncWrapperFree sz locSize ign none none fn args kwargs []
      now).2.2 = true ∧
    (callNTimes sz locSize ign fn args kwargs now N []).2.1 = 1 ∧
    (callNTimes sz locSize ign fn args kwargs now N []).2.2
      = List.replicate N (fn.eval args kwargs) := by
  obtain ⟨m, rfl⟩ : ∃ m, N = m + 1 := ⟨N - 1, by omega⟩
  have hmiss : Cache.getOp (wrapperFilename sz ign fn args kwargs) sz []
      (deadlineOf none now) = Except.error ReadErr.fileNotFound := rfl
  have hwrap := nonAsyncWrapperFree_miss sz locSize ign none none fn args
      kwargs [] now ReadErr.fileNotFound hmiss
  have he : assocLookup (wrapperFilename sz ign fn args kwargs)
      (Cache.setOp (wrapperFilename sz ign fn args kwargs)
        (fn.eval args kwargs) sz [] locSize none now)
      = some ⟨sz.dumps (fn.eval args kwargs), now, now⟩ :=
    assocLookup_write_self locSize [] none _ _ now
  have hstable := callNTimes_stable sz locSize ign fn args kwargs now _ _ he m
  refine ⟨by rw [hwrap], ?_, ?_⟩
  · simp only [callNTimes, hwrap, hstable]
    simp
  · simp only [callNTimes, hwrap, hstable, hrt]
    simp [List.replicate_succ]

/-- Witness for claim C1 at a concrete input: the default CloudPickle
serializer round-trips, and two calls on a one-argument identity-like
function execute it once and both return its value. -/
theorem claim_C1_witness :
    (nonAsyncWrapperFree cloudPickleSerializer statDirSize none none none
      fnSample [PyValue.vInt 3] [] [] 0).2.2 = true ∧
    (callNTimes cloudPickleSerializer statDirSize none fnSample
      [PyValue.vInt 3] [] 0 2 []).2.1 = 1 ∧
    (callNTimes cloudPickleSerializer statDirSize none fnSample
      [PyValue.vInt 3] [] 0 2 []).2.2
      = List.replicate 2 (fnSample.eval [PyValue.vInt 3] []) :=
  claim_C1_idempotence cloudPickleSerializer statDirSize (fun _ => rfl) none
    fnSample [PyValue.vInt 3] [] 0 2 (by omega)

/-- Claim C2 counterexample: a namespace holding a single one-byte file
and target size 10.  The accumulation never reaches the target, so the
accumulated most-recently-used set claimed to be retained is the whole
namespace, yet the code deletes the slice files[i - 1 :], which here is
the single file: an entry inside the accumulated set is deleted, refuting
the claim that every entry inside the accumulated set is retained. -/
theorem claim_C2_counterexample :
    specEvictionKept [cexFile] 10 = [cexFile] ∧
    (delete_least_recently_used [cexFile] 10).1 = [] ∧
    (delete_least_recently_used [cexFile] 10).2 = [cexFile] := by
  refine ⟨rfl, rfl, rfl⟩

/-- Claim C2 as amended: the eviction pass sorts the entries descending
by last-access time (a permutation of the namespace); it then deletes
all entries from the last-accumulated one onwards, so the retained set
is the maximal strict prefix whose total size is strictly below the
target, and when the whole namespace fits below the target the
least-recently-used entry is nevertheless deleted (the retained set is
then everything except the last entry of the sorted order). -/
theorem claim_C2_amended (st : List FSEntry) (t : Nat) (ht : 0 < t) :
    List.Sorted atimeGE (sortByAtimeDesc st) ∧
    (sortByAtimeDesc st).Perm st ∧
    (delete_least_recently_used st t).1
      = (if dirSize (sortByAtimeDesc st) < t
         then (sortByAtimeDesc st).dropLast
         else keepUnderTarget (sortByAtimeDesc st) t) ∧
    (delete_least_recently_used st t).2
      = (sortByAtimeDesc st).drop
          ((delete_least_recently_used st t).1.length) := by
  refine ⟨?_, ?_, ?_, ?_⟩
  · unfold sortByAtimeDesc
    exact List.sorted_insertionSort atimeGE st
  · unfold sortByAtimeDesc
    exact List.perm_insertionSort atimeGE st
  · rw [evict_kept_eq_take st t ht]
    by_cases hd : dirSize (sortByAtimeDesc st) < t
    · rw [if_pos hd,
        evictExitFrom_of_total_lt t (sortByAtimeDesc st) 0 ht (by omega)]
      exact (dropLast_eq_take_pred _).symm
    · rw [if_neg hd]
      have hres := take_evictExit_eq_keepUnderTarget t (sortByAtimeDesc st) 0
        ht (by omega)
      rwa [Nat.sub_zero] at hres
  · rw [evict_deleted_eq_drop st t ht, evict_kept_eq_take st t ht,
      List.length_take, drop_min_len]

/-- Witness for the amended claim C2 at a concrete input. -/
theorem claim_C2_amended_witness :
    List.Sorted atimeGE (sortByAtimeDesc [cexFile]) ∧
    (sortByAtimeDesc [cexFile]).Perm [cexFile] ∧
    (delete_least_recently_used [cexFile] 10).1
      = (if dirSize (sortByAtimeDesc [cexFile]) < 10
         then (sortByAtimeDesc [cexFile]).dropLast
         else keepUnderTarget (sortByAtimeDesc [cexFile]) 10) ∧
    (delete_least_recently_used [cexFile] 10).2
      = (sortByAtimeDesc [cexFile]).drop
          ((delete_least_recently_used [cexFile] 10).1.length) :=
  claim_C2_amended [cexFile] 10 (by omega)

/-- Supporting lemma for claim C3: were the size accessor applied to the
location to report the aggregate total of the entries (as the spec
intends and the trigger logic of FileStorage.write presupposes), the
claimed bound would hold after any sequence of writes with max_size S
positive.  This is not what LocalFileStorage.size does; see
claim_C3_code_bug. -/
theorem dirSize_execWrites_le_of_aggregate (S : Nat) (ops : List WriteOp)
    (hS : 0 < S) :
    dirSize (execWrites dirSize (some S) ops []) ≤ S + maxWriteLen ops := by
  rcases List.eq_nil_or_concat ops with h | ⟨pre, op, rfl⟩
  · subst h
    simp [execWrites, dirSize, maxWriteLen]
  · rw [List.concat_eq_append, execWrites_append]
    have h2 : execWrites dirSize (some S) [op]
          (execWrites dirSize (some S) pre [])
        = FileStorage.write dirSize (execWrites dirSize (some S) pre [])
          (some S) op.1 op.2.1 op.2.2 := rfl
    rw [h2]
    have h1 := dirSize_write_le (execWrites dirSize (some S) pre []) S op.1
      op.2.1 op.2.2 hS
    have h3 := le_maxWriteLen (pre ++ [op]) op (by simp)
    omega

/-- Claim C3 fails on the code as written.  The eviction trigger of
FileStorage.write compares self.size(self.location) + len(data) against
max_size, and LocalFileStorage.size applied to the cache directory
returns path.stat().st_size (storage.py lines 165-166): the directory
inode size, constant 4096 on a typical ext4 filesystem, not the total of
the entries.  With max_size 10000, four writes of distinct 4000-byte
entries never fire the trigger (4096 + 4000 stays below 10000), no
eviction ever runs, and the namespace ends up holding 16000 bytes of
entries, exceeding max_size plus the largest entry ever written
(10000 + 4000 = 14000).  The claim describes the intended design: under
an aggregate-reporting accessor the bound is provable
(dirSize_execWrites_le_of_aggregate), so the accessor is the slip. -/
theorem claim_C3_code_bug :
    dirSize (execWrites statDirSize (some 10000) c3FailOps []) = 16000 ∧
    10000 + maxWriteLen c3FailOps
      < dirSize (execWrites statDirSize (some 10000) c3FailOps []) := by
  refine ⟨by decide, by decide⟩

/-- Claim C4: for a stored entry, the storage read raises CacheExpired
exactly when the deadline is non-null and the last-modified time of the
entry is strictly older than the deadline (with a null deadline it never
raises CacheExpired); the deadline of a configured positive ttl is now
minus ttl; and any read failure (FileNotFoundError or CacheExpired) is
handled identically by the wrapper: the wrapped callable is re-executed,
its result written back, and the value returned, never an error. -/
theorem claim_C4_ttl_expired_as_miss :
    (∀ (st : List FSEntry) (n : Filename) (e : Entry) (d : Nat),
      assocLookup n st = some e →
      (FileStorage.read st n (some d) = Except.error ReadErr.cacheExpired
        ↔ e.mtime < d)) ∧
    (∀ (st : List FSEntry) (n : Filename),
      FileStorage.read st n none ≠ Except.error ReadErr.cacheExpired) ∧
    (∀ (t now : Nat), t ≠ 0 → deadlineOf (some t) now = some (now - t)) ∧
    (∀ (sz : SerializerModel) (locSize : List FSEntry → Nat)
        (ign : Option (List String))
        (maxSize ttl : Option Nat) (fn : PyFunction) (args : List PyValue)
        (kwargs : List (String × PyValue)) (st : List FSEntry) (now : Nat)
        (err : ReadErr),
      Cache.getOp (wrapperFilename sz ign fn args kwargs) sz st
        (deadlineOf ttl now) = Except.error err →
      nonAsyncWrapperFree sz locSize ign maxSize ttl fn args kwargs st now
        = (fn.eval args kwargs,
           Cache.setOp (wrapperFilename sz ign fn args kwargs)
             (fn.eval args kwargs) sz st locSize maxSize now, true)) := by
  refine ⟨?_, ?_, ?_, ?_⟩
  · intro st n e d he
    unfold FileStorage.read
    rw [he]
    by_cases hm : e.mtime < d
    · simp [hm]
    · simp [hm]
  · intro st n
    unfold FileStorage.read
    cases h : assocLookup n st <;> simp
  · intro t now h
    simp [deadlineOf, h]
  · intro sz locSize ign maxSize ttl fn args kwargs st now err h
    exact nonAsyncWrapperFree_miss sz locSize ign maxSize ttl fn args kwargs
      st now err h

/-- Witness for claim C4 at concrete inputs: a stored entry with mtime 5
is expired against deadline 7; a null deadline never expires; the
deadline of ttl 2 at time 9 is 7; and a read failure makes the wrapper
execute and write back. -/
theorem claim_C4_witness :
    (FileStorage.read [(fnmSample, ⟨PyValue.vInt 0, 5, 5⟩)] fnmSample (some 7)
        = Except.error ReadErr.cacheExpired ↔ (5 : Nat) < 7) ∧
    FileStorage.read [] fnmSample none ≠ Except.error ReadErr.cacheExpired ∧
    deadlineOf (some 2) 9 = some (9 - 2) ∧
    nonAsyncWrapperFree cloudPickleSerializer statDirSize none none (some 2)
        fnSample [PyValue.vInt 3] [] [] 9
      = (fnSample.eval [PyValue.vInt 3] [],
         Cache.setOp (wrapperFilename cloudPickleSerializer none fnSample
             [PyValue.vInt 3] []) (fnSample.eval [PyValue.vInt 3] [])
           cloudPickleSerializer [] statDirSize none 9, true) :=
  ⟨claim_C4_ttl_expired_as_miss.1 _ fnmSample ⟨PyValue.vInt 0, 5, 5⟩ 7 (by
      simp [assocLookup]),
   claim_C4_ttl_expired_as_miss.2.1 [] fnmSample,
   claim_C4_ttl_expired_as_miss.2.2.1 2 9 (by omega),
   claim_C4_ttl_expired_as_miss.2.2.2 cloudPickleSerializer statDirSize none
     none (some 2) fnSample [PyValue.vInt 3] [] [] 9 ReadErr.fileNotFound rfl⟩

/-- Claim C5: derived keys are sensitive to (a) the value of any bound
non-ignored declared parameter, (b) the source text of the callable, and
(c) the serializer class name; and key derivation is deterministic
(byte-identical inputs give identical keys).  Sensitivity holds up to
the collision resistance of the digest, which the model idealizes as
injective. -/
theorem claim_C5_key_sensitivity :
    (∀ (source : String) (params : List String) (args₁ args₂ : List PyValue)
        (kwargs : List (String × PyValue)) (serName : String)
        (ignore : Option (List String)) (iid : Option Nat) (pin : Bool)
        (j : Nat) (p : String) (v₁ v₂ : PyValue),
      params.Nodup → startIdxOf iid ≤ j → params[j]? = some p →
      condParam (ignoreSetOf ignore) pin p = true →
      args₁[j]? = some v₁ → args₂[j]? = some v₂ → v₁ ≠ v₂ →
      Cache.get_hash source params args₁ kwargs serName ignore iid pin
        ≠ Cache.get_hash source params args₂ kwargs serName ignore iid pin) ∧
    (∀ (s₁ s₂ : String) (params : List String) (args : List PyValue)
        (kwargs : List (String × PyValue)) (serName : String)
        (ignore : Option (List String)) (iid : Option Nat) (pin : Bool),
      s₁ ≠ s₂ →
      Cache.get_hash s₁ params args kwargs serName ignore iid pin
        ≠ Cache.get_hash s₂ params args kwargs serName ignore iid pin) ∧
    (∀ (source : String) (params : List String) (args : List PyValue)
        (kwargs : List (String × PyValue)) (n₁ n₂ : String)
        (ignore : Option (List String)) (iid : Option Nat) (pin : Bool),
      n₁ ≠ n₂ →
      Cache.get_hash source params args kwargs n₁ ignore iid pin
        ≠ Cache.get_hash source params args kwargs n₂ ignore iid pin) ∧
    (∀ (source : String) (params : List String) (args : List PyValue)
        (kwargs : List (String × PyValue)) (serName : String)
        (ignore : Option (List String)) (iid : Option Nat) (pin : Bool),
      Cache.get_hash source params args kwargs serName ignore iid pin
        = Cache.get_hash source params args kwargs serName ignore iid pin) := by
  refine ⟨?_, ?_, ?_, fun _ _ _ _ _ _ _ _ => rfl⟩
  · intro source params args₁ args₂ kwargs serName ignore iid pin j p v₁ v₂
      hnd hs hj hc h1 h2 hne heq
    have hdict := get_hash_eq_dict_eq source params args₁ args₂ kwargs kwargs
      serName ignore iid pin heq
    have hndd : (params.drop (startIdxOf iid)).Nodup :=
      List.Sublist.nodup (List.drop_sublist _ _) hnd
    have harith : startIdxOf iid + (j - startIdxOf iid) = j := by omega
    have hps : (params.drop (startIdxOf iid))[j - startIdxOf iid]? = some p := by
      rw [List.getElem?_drop, harith]
      exact hj
    have hl1 := argDictLoop_lookup args₁ kwargs (ignoreSetOf ignore) pin
      (params.drop (startIdxOf iid)) (startIdxOf iid) (j - startIdxOf iid) p
      hndd hps hc
    have hl2 := argDictLoop_lookup args₂ kwargs (ignoreSetOf ignore) pin
      (params.drop (startIdxOf iid)) (startIdxOf iid) (j - startIdxOf iid) p
      hndd hps hc
    rw [hdict] at hl1
    have hbind := hl1.symm.trans hl2
    rw [harith] at hbind
    unfold bindOf at hbind
    rw [h1, h2] at hbind
    exact hne (by simpa using hbind)
  · intro s₁ s₂ params args kwargs serName ignore iid pin hne heq
    unfold Cache.get_hash hash_it at heq
    cases iid with
    | none =>
      simp only [List.cons.injEq, HashComponent.src.injEq] at heq
      exact hne heq.1
    | some x =>
      cases pin <;>
        simp only [List.cons.injEq, HashComponent.src.injEq,
          HashComponent.inst.injEq] at heq
      · exact hne heq.1
      · exact hne heq.2.1
  · intro source params args kwargs n₁ n₂ ignore iid pin hne heq
    unfold Cache.get_hash hash_it at heq
    cases iid with
    | none =>
      simp only [List.cons.injEq, HashComponent.ser.injEq] at heq
      exact hne heq.2.1
    | some x =>
      cases pin <;>
        simp only [List.cons.injEq, HashComponent.ser.injEq,
          HashComponent.inst.injEq] at heq
      · exact hne heq.2.1
      · exact hne heq.2.2.1

/-- Witness for claim C5 at a concrete input: changing the bound value
of the only parameter changes the key. -/
theorem claim_C5_witness :
    Cache.get_hash "s" ["x"] [PyValue.vInt 1] [] "S" none none true
      ≠ Cache.get_hash "s" ["x"] [PyValue.vInt 2] [] "S" none none true :=
  claim_C5_key_sensitivity.1 "s" ["x"] [PyValue.vInt 1] [PyValue.vInt 2] []
    "S" none none true 0 "x" (PyValue.vInt 1) (PyValue.vInt 2)
    (by decide) (by decide) rfl (by decide) rfl rfl (by decide)

/-- Claim C6: derived keys are insensitive to (first part) the value of
an ignored parameter, whether it is passed positionally or by keyword,
and (second part) to passing the same bound values positionally versus
by keyword. -/
theorem claim_C6_key_insensitivity :
    (∀ (source : String) (params : List String) (args₁ args₂ : List PyValue)
        (kwargs₁ kwargs₂ : List (String × PyValue)) (serName : String)
        (ignore : Option (List String)) (pin : Bool) (j : Nat) (p : String),
      params[j]? = some p → p ∈ ignoreSetOf ignore →
      (∀ k, k ≠ j → args₁[k]? = args₂[k]?) →
      (∀ q, q ∉ ignoreSetOf ignore →
        assocLookup q kwargs₁ = assocLookup q kwargs₂) →
      Cache.get_hash source params args₁ kwargs₁ serName ignore none pin
        = Cache.get_hash source params args₂ kwargs₂ serName ignore none
            pin) ∧
    (∀ (source : String) (params : List String) (vs : List PyValue)
        (serName : String) (ignore : Option (List String)) (pin : Bool),
      params.Nodup → vs.length ≤ params.length →
      Cache.get_hash source params vs [] serName ignore none pin
        = Cache.get_hash source params [] (params.zip vs) serName ignore
            none pin) := by
  constructor
  · intro source params args₁ args₂ kwargs₁ kwargs₂ serName ignore pin j p
      hj hpin hargs hkw
    refine get_hash_congr_of_bind source params args₁ args₂ kwargs₁ kwargs₂
      serName ignore pin (fun k q hk hc => ?_)
    have hq_not : q ∉ ignoreSetOf ignore := by
      simp [condParam] at hc
      exact hc.1
    have hkj : k ≠ j := by
      intro hkk
      subst hkk
      rw [hj] at hk
      injection hk with hqp
      exact hq_not (hqp ▸ hpin)
    unfold bindOf
    rw [hargs k hkj]
    cases h : args₂[k]? with
    | some v => rfl
    | none => exact hkw q hq_not
  · intro source params vs serName ignore pin hnd hlen
    refine get_hash_congr_of_bind source params vs [] [] (params.zip vs)
      serName ignore pin (fun k q hk _ => ?_)
    have hzip : assocLookup q (params.zip vs) = vs[k]? :=
      assocLookup_zip params vs k q hnd hk
    unfold bindOf
    rw [List.getElem?_nil, hzip]
    cases h : vs[k]? with
    | some v => rfl
    | none => rfl

/-- Witness for claim C6 at a concrete input: one positional argument
and the same argument passed by keyword give the same key. -/
theorem claim_C6_witness :
    Cache.get_hash "s" ["x"] [PyValue.vInt 1] [] "S" none none true
      = Cache.get_hash "s" ["x"] [] (["x"].zip [PyValue.vInt 1]) "S" none
          none true :=
  claim_C6_key_insensitivity.2 "s" ["x"] [PyValue.vInt 1] "S" none true
    (by decide) (by decide)

/-- Claim C9: only declared parameter names participate in the hashed
argument dictionary, so two calls that differ only in extra keyword
arguments whose names are not declared parameters (in particular the
extra keywords captured by a var-keyword parameter) derive equal
keys. -/
theorem claim_C9_varkw_not_hashed (source : String) (params : List String)
    (args : List PyValue) (base ex₁ ex₂ : List (String × PyValue))
    (serName : String) (ignore : Option (List String)) (pin : Bool)
    (h₁ : ∀ e ∈ ex₁, e.1 ∉ params) (h₂ : ∀ e ∈ ex₂, e.1 ∉ params) :
    Cache.get_hash source params args (base ++ ex₁) serName ignore none pin
      = Cache.get_hash source params args (base ++ ex₂) serName ignore none
          pin := by
  refine get_hash_congr_of_bind source params args args (base ++ ex₁)
    (base ++ ex₂) serName ignore pin (fun k q hk _ => ?_)
  have hqmem : q ∈ params := by
    obtain ⟨hlt, hv⟩ := List.getElem?_eq_some.mp hk
    exact hv ▸ List.getElem_mem hlt
  have hex₁ : assocLookup q ex₁ = none :=
    assocLookup_none_of_keys q ex₁
      (fun e he heq => h₁ e he (by rw [heq]; exact hqmem))
  have hex₂ : assocLookup q ex₂ = none :=
    assocLookup_none_of_keys q ex₂
      (fun e he heq => h₂ e he (by rw [heq]; exact hqmem))
  unfold bindOf
  cases h : args[k]? with
  | some v => rfl
  | none =>
    rw [assocLookup_append, assocLookup_append]
    cases hb : assocLookup q base with
    | some v => rfl
    | none => rw [hex₁, hex₂]

/-- Witness for claim C9 at a concrete input: a callable declaring x and
a var-keyword parameter kwargs, called with different extra keywords,
derives equal keys. -/
theorem claim_C9_witness :
    Cache.get_hash "s" ["x", "kwargs"] []
        ([("x", PyValue.vInt 1)] ++ [("z", PyValue.vInt 5)]) "S" none none
        true
      = Cache.get_hash "s" ["x", "kwargs"] []
          ([("x", PyValue.vInt 1)] ++ [("q", PyValue.vInt 7)]) "S" none none
          true :=
  claim_C9_varkw_not_hashed "s" ["x", "kwargs"] [] [("x", PyValue.vInt 1)]
    [("z", PyValue.vInt 5)] [("q", PyValue.vInt 7)] "S" none true
    (by decide) (by decide)

/-- Claim C10: parameter defaults are never applied when building the
hashed argument dictionary.  A call that leaves a (non-ignored) declared
parameter unbound produces a dictionary without that parameter, while a
call that passes the same parameter explicitly (here by keyword)
produces a dictionary containing it, and the two derived keys differ. -/
theorem claim_C10_defaults_absent (source : String) (params : List String)
    (args : List PyValue) (kwargs : List (String × PyValue))
    (serName : String) (ignore : Option (List String)) (j : Nat) (p : String)
    (v : PyValue) (hnd : params.Nodup) (hj : params[j]? = some p)
    (hargs : args.length ≤ j) (hkw : assocLookup p kwargs = none)
    (hc : condParam (ignoreSetOf ignore) true p = true) :
    assocLookup p (argDictLoop args kwargs (ignoreSetOf ignore) true params 0)
      = none ∧
    assocLookup p (argDictLoop args (kwargs ++ [(p, v)]) (ignoreSetOf ignore)
        true params 0) = some v ∧
    Cache.get_hash source params args kwargs serName ignore none true
      ≠ Cache.get_hash source params args (kwargs ++ [(p, v)]) serName ignore
          none true := by
  have hargj : args[j]? = none := List.getElem?_eq_none hargs
  have hl1 := argDictLoop_lookup args kwargs (ignoreSetOf ignore) true params
    0 j p hnd hj hc
  have hl2 := argDictLoop_lookup args (kwargs ++ [(p, v)]) (ignoreSetOf ignore)
    true params 0 j p hnd hj hc
  have hb1 : bindOf args kwargs (0 + j) p = none := by
    unfold bindOf
    rw [Nat.zero_add, hargj, hkw]
  have hb2 : bindOf args (kwargs ++ [(p, v)]) (0 + j) p = some v := by
    unfold bindOf
    rw [Nat.zero_add, hargj, assocLookup_append, hkw]
    simp [assocLookup]
  rw [hb1] at hl1
  rw [hb2] at hl2
  refine ⟨hl1, hl2, fun heq => ?_⟩
  have hdict := get_hash_eq_dict_eq source params args args kwargs
    (kwargs ++ [(p, v)]) serName ignore none true heq
  simp only [startIdxOf, List.drop_zero] at hdict
  rw [hdict] at hl1
  rw [hl2] at hl1
  exact Option.noConfusion hl1

/-- Witness for claim C10 at a concrete input: omitting the defaulted
second parameter versus passing it by keyword changes the key. -/
theorem claim_C10_witness :
    assocLookup "y" (argDictLoop [PyValue.vInt 1] [] (ignoreSetOf none) true
        ["x", "y"] 0) = none ∧
    assocLookup "y" (argDictLoop [PyValue.vInt 1] ([] ++ [("y", PyValue.vNone)])
        (ignoreSetOf none) true ["x", "y"] 0) = some PyValue.vNone ∧
    Cache.get_hash "s" ["x", "y"] [PyValue.vInt 1] [] "S" none none true
      ≠ Cache.get_hash "s" ["x", "y"] [PyValue.vInt 1]
          ([] ++ [("y", PyValue.vNone)]) "S" none none true :=
  claim_C10_defaults_absent "s" ["x", "y"] [PyValue.vInt 1] [] "S" none 1 "y"
    PyValue.vNone (by decide) rfl (by decide) rfl (by decide)

/-- Claim C7 counterexample: a free function named m (isBoundCall false,
a realizable Python call) invoked with a first argument that is an
object of a class C defining an attribute named m.  The is_instance_method
heuristic fires, misclassifying the free-function call as a method call:
the detection is not correct on free functions whose first argument
merely has matching shape. -/
theorem claim_C7_counterexample :
    CallScenario.wellFormed cexScenario = true ∧
    cexScenario.isBoundCall = false ∧
    is_instance_method cexScenario.fnName cexScenario.args = true := by
  refine ⟨rfl, rfl, by decide⟩

/-- Claim C7 as amended: the detection is a heuristic, not a correct
decision procedure.  Every genuine bound-method call (well-formed
scenario with isBoundCall true) is detected; and whenever the detection
fires on a method-shaped call, the instance (first argument) is excluded
from the hashed argument dictionary (the key hashes only the remaining
parameters, plus the instance id) while the underlying function is still
executed with the instance; but the detection can also fire for a free
function whose first argument merely has matching shape (see the
counterexample). -/
theorem claim_C7_amended :
    (∀ s : CallScenario, s.wellFormed = true → s.isBoundCall = true →
      is_instance_method s.fnName s.args = true) ∧
    (∀ (source fnName p0 : String) (ps : List String) (serName : String)
        (ignore : Option (List String)) (instId : Nat) (c : String)
        (attrs : List String) (rest : List PyValue)
        (kwargs : List (String × PyValue)),
      fnName ∈ attrs → p0 ∉ ps →
      is_instance_method fnName (PyValue.vObj c attrs :: rest) = true ∧
      (wrappedKeyAndExec source fnName (p0 :: ps) serName ignore true instId
          (PyValue.vObj c attrs :: rest) kwargs).execArgs
        = PyValue.vObj c attrs :: rest ∧
      (wrappedKeyAndExec source fnName (p0 :: ps) serName ignore true instId
          (PyValue.vObj c attrs :: rest) kwargs).key
        = [HashComponent.inst instId, HashComponent.src source,
           HashComponent.ser serName,
           HashComponent.dict (argDictLoop (PyValue.vObj c attrs :: rest)
             kwargs (ignoreSetOf ignore) true ps 1)] ∧
      assocLookup p0 (argDictLoop (PyValue.vObj c attrs :: rest) kwargs
          (ignoreSetOf ignore) true ps 1) = none) := by
  constructor
  · intro s hwf hb
    unfold CallScenario.wellFormed at hwf
    rw [hb] at hwf
    simp only [if_true] at hwf
    cases hargs : s.args with
    | nil => rw [hargs] at hwf; simp at hwf
    | cons a rest =>
      cases a with
      | vNone => rw [hargs] at hwf; simp at hwf
      | vBool b => rw [hargs] at hwf; simp at hwf
      | vInt n => rw [hargs] at hwf; simp at hwf
      | vStr str => rw [hargs] at hwf; simp at hwf
      | vObj c attrs =>
        rw [hargs] at hwf
        simp only [decide_eq_true_eq] at hwf
        simp [is_instance_method, typeHasAttr, isPrimitiveInstance, hwf]
  · intro source fnName p0 ps serName ignore instId c attrs rest kwargs
      hmem hp0
    have hdet : is_instance_method fnName (PyValue.vObj c attrs :: rest)
        = true := by
      simp [is_instance_method, typeHasAttr, isPrimitiveInstance, hmem]
    refine ⟨hdet, ?_, ?_, ?_⟩
    · simp [wrappedKeyAndExec, hdet]
    · simp [wrappedKeyAndExec, hdet, Cache.get_hash, hash_it, startIdxOf]
    · exact argDictLoop_lookup_none (PyValue.vObj c attrs :: rest) kwargs
        (ignoreSetOf ignore) true ps 1 p0 hp0

/-- Witness for the amended claim C7 at a concrete input: a genuine
bound call on an object of class C with method m is detected, the
instance is stripped from the hashed dictionary, and the method still
executes with the instance. -/
theorem claim_C7_amended_witness :
    is_instance_method "m" [PyValue.vObj "C" ["m"]] = true ∧
    (wrappedKeyAndExec "src" "m" ["self"] "S" none true 42
        [PyValue.vObj "C" ["m"]] []).execArgs = [PyValue.vObj "C" ["m"]] ∧
    (wrappedKeyAndExec "src" "m" ["self"] "S" none true 42
        [PyValue.vObj "C" ["m"]] []).key
      = [HashComponent.inst 42, HashComponent.src "src",
         HashComponent.ser "S",
         HashComponent.dict (argDictLoop [PyValue.vObj "C" ["m"]] []
           (ignoreSetOf none) true [] 1)] ∧
    assocLookup "self" (argDictLoop [PyValue.vObj "C" ["m"]] []
        (ignoreSetOf none) true [] 1) = none :=
  claim_C7_amended.2 "src" "m" "self" [] "S" none 42 "C" ["m"] [] []
    (by decide) (by decide)

/-- Claim C8: a non-positive ttl and an ignore list naming a parameter
absent from the signature of the wrapped callable are each rejected
while the decorator is applied (the icontract preconditions on
Cache.__call__ and _CachedFunction.__call__ both run at decoration time,
before the wrapped callable exists, so no call can proceed); decoration
succeeds exactly when the ttl is positive or absent and every ignored
name is a declared parameter. -/
theorem claim_C8_config_rejected :
    (∀ (params : List String) (ign : Option (List String)) (t : Int)
        (pin : Bool), t ≤ 0 →
      Cache.decorate params ign (some t) pin
        = Except.error ConfigError.invalidTtl) ∧
    (∀ (params l : List String) (x : String) (ttl : Option Int) (pin : Bool),
      ttlValid ttl = true → x ∈ l → x ∉ params →
      Cache.decorate params (some l) ttl pin
        = Except.error ConfigError.unknownIgnored) ∧
    (∀ (params : List String) (ign : Option (List String)) (ttl : Option Int)
        (pin : Bool),
      Cache.decorate params ign ttl pin = Except.ok ⟨ign, ttl, pin⟩
        ↔ (ttlValid ttl = true ∧ ignoreValid params ign = true)) := by
  refine ⟨?_, ?_, ?_⟩
  · intro params ign t pin ht
    have hv : ttlValid (some t) = false := by
      simp [ttlValid]
      omega
    simp [Cache.decorate, hv]
  · intro params l x ttl pin hvt hx hxp
    have hv2 : ignoreValid params (some l) = false := by
      simp only [ignoreValid]
      rw [List.all_eq_false]
      exact ⟨x, hx, by simpa using hxp⟩
    simp [Cache.decorate, hvt, hv2]
  · intro params ign ttl pin
    by_cases h1 : ttlValid ttl = false
    · simp [Cache.decorate, h1]
    · have h1t : ttlValid ttl = true := by
        revert h1; cases ttlValid ttl <;> simp
      by_cases h2 : ignoreValid params ign = false
      · simp [Cache.decorate, h1, h2]
      · have h2t : ignoreValid params ign = true := by
          revert h2; cases ignoreValid params ign <;> simp
        simp [Cache.decorate, h1, h2, h1t, h2t]

/-- Witness for claim C8 at concrete inputs: ttl of minus one day is
rejected, an ignore list naming an unknown parameter is rejected, and a
valid configuration is accepted. -/
theorem claim_C8_witness :
    Cache.decorate ["x"] none (some (-1)) true
      = Except.error ConfigError.invalidTtl ∧
    Cache.decorate ["x"] (some ["abc"]) none true
      = Except.error ConfigError.unknownIgnored ∧
    (Cache.decorate ["x"] (some ["x"]) (some 1) true
      = Except.ok ⟨some ["x"], some 1, true⟩
        ↔ (ttlValid (some 1) = true ∧ ignoreValid ["x"] (some ["x"]) = true)) :=
  ⟨claim_C8_config_rejected.1 ["x"] none (-1) true (by omega),
   claim_C8_config_rejected.2.1 ["x"] ["abc"] "abc" none true rfl
     (by decide) (by decide),
   claim_C8_config_rejected.2.2 ["x"] (some ["x"]) (some 1) true⟩
